import Mathlib

/-!
Verification of the cappa CLI library's type-to-parser derivation engine
(`cappa/annotation.py`) and its command collection / result-mapping logic
(`cappa/command.py`), via a shallow embedding.

Python values are modelled by `PyVal`, Python exceptions by `PErr` (fallible
code returns `Except PErr _`).  Modelling notes, stated once here:

* Machine floats are modelled as exact rationals (`Rat`); no verified claim
  depends on floating-point rounding, only on which conversions succeed.
* `int(...)` / `float(...)` string grammars are modelled without underscores,
  surrounding whitespace or exponents; no claim depends on those corners.
* Python `set` objects are modelled as insertion-ordered duplicate-free
  lists (CPython iteration order is hash-dependent; the code paths verified
  here never observe an order in which two distinct elements both match).
* `str()` renderings of scalars (None, bool, int, str) are exact; renderings
  of containers and floats are approximations never relied on by a claim.
-/

/-- A Python exception, as raised by the embedded code: `ValueError`,
`TypeError`, or any other exception class (carrying `str(e)`). -/
inductive PErr : Type where
  | valueError (msg : String)
  | typeError (msg : String)
  | other (msg : String)
  deriving DecidableEq

/-- A Python runtime value as far as the embedded code can observe it.
`handle` is the opaque result of opening a file via a `FileMode`. -/
inductive PyVal : Type where
  | none
  | bool (b : Bool)
  | int (n : Int)
  | float (q : Rat)
  | str (s : String)
  | list (xs : List PyVal)
  | tuple (xs : List PyVal)
  | set (xs : List PyVal)
  | handle (mode : String) (target : PyVal)

/-- Python type name of a value, as used in `TypeError` messages. -/
def pyTypeName : PyVal → String
  | .none => "NoneType"
  | .bool _ => "bool"
  | .int _ => "int"
  | .float _ => "float"
  | .str _ => "str"
  | .list _ => "list"
  | .tuple _ => "tuple"
  | .set _ => "set"
  | .handle _ _ => "TextIOWrapper"

/-- Rendering of a modelled float; exact only for integral values.  No claim
depends on non-integral float renderings. -/
def floatStr (q : Rat) : String :=
  if q.den = 1 then toString q.num ++ ".0" else toString q.num ++ "/" ++ toString q.den

mutual

/-- Python `repr(...)`, restricted to the values of this model. -/
def pyRepr : PyVal → String
  | .none => "None"
  | .bool b => if b then "True" else "False"
  | .int n => toString n
  | .float q => floatStr q
  | .str s => "'" ++ s ++ "'"
  | .list xs => "[" ++ pyReprJoin xs ++ "]"
  | .tuple xs => "(" ++ pyReprJoin xs ++ ")"
  | .set xs => "\x7b" ++ pyReprJoin xs ++ "\x7d"
  | .handle m _ => "<file handle mode=" ++ m ++ ">"

def pyReprJoin : List PyVal → String
  | [] => ""
  | [x] => pyRepr x
  | x :: y :: rest => pyRepr x ++ ", " ++ pyReprJoin (y :: rest)

end

/-- Python `str(...)`: identity on strings, `repr` otherwise (scalars render
identically under `str` and `repr`). -/
def pyStr : PyVal → String
  | .str s => s
  | v => pyRepr v

/-- The numeric value of a Python number (`bool` counts as a number:
`True == 1`), used for Python `==` across numeric types. -/
def pyAsRat : PyVal → Option Rat
  | .bool b => some (if b then 1 else 0)
  | .int n => some (n : Rat)
  | .float q => some q
  | _ => Option.none

mutual

/-- Python `==`.  Numbers compare by value across `bool`/`int`/`float`;
`set` equality is approximated order-sensitively (see header note). -/
def pyEq : PyVal → PyVal → Bool
  | .none, .none => true
  | .str a, .str b => a == b
  | .list a, .list b => pyEqList a b
  | .tuple a, .tuple b => pyEqList a b
  | .set a, .set b => pyEqList a b
  | .handle m t, .handle m' t' => m == m' && pyEq t t'
  | a, b =>
    match pyAsRat a, pyAsRat b with
    | some x, some y => x == y
    | _, _ => false

def pyEqList : List PyVal → List PyVal → Bool
  | [], [] => true
  | a :: xs, b :: ys => pyEq a b && pyEqList xs ys
  | _, _ => false

end

/-- Python truthiness. -/
def pyTruthy : PyVal → Bool
  | .none => false
  | .bool b => b
  | .int n => n != 0
  | .float q => q != 0
  | .str s => s != ""
  | .list xs => !xs.isEmpty
  | .tuple xs => !xs.isEmpty
  | .set xs => !xs.isEmpty
  | .handle _ _ => true

/-- Python `in` for a collection of values (membership by `==`). -/
def pyMember (v : PyVal) (l : List PyVal) : Bool :=
  l.any (fun y => pyEq v y)

/-- Iterating a Python value, as a `for` loop or `zip` does: containers yield
their elements, strings their characters, everything else raises `TypeError`. -/
def pyIterate : PyVal → Except PErr (List PyVal)
  | .list xs => .ok xs
  | .tuple xs => .ok xs
  | .set xs => .ok xs
  | .str s => .ok (s.data.map (fun c => .str (String.mk [c])))
  | v => .error (.typeError ("'" ++ pyTypeName v ++ "' object is not iterable"))

/-- `set(...)` construction: keep the first occurrence of each `==`-class. -/
def dedupPyGo (seen : List PyVal) : List PyVal → List PyVal
  | [] => []
  | x :: rest =>
    if pyMember x seen then dedupPyGo seen rest
    else x :: dedupPyGo (seen ++ [x]) rest

/-- `set(args)` as an insertion-ordered duplicate-free list. -/
def dedupPy (l : List PyVal) : List PyVal :=
  dedupPyGo [] l

/-- All-digit string to a number. -/
def digitsToNat? : List Char → Option Nat
  | [] => Option.none
  | l =>
    if l.all Char.isDigit then
      some (l.foldl (fun acc c => acc * 10 + (c.toNat - '0'.toNat)) 0)
    else Option.none

/-- The `int(...)` base-10 string grammar: optional sign, then digits. -/
def pyParseInt (s : String) : Option Int :=
  match s.data with
  | '+' :: rest => (digitsToNat? rest).map Int.ofNat
  | '-' :: rest => (digitsToNat? rest).map (fun n => -(n : Int))
  | l => (digitsToNat? l).map Int.ofNat

/-- The `float(...)` string grammar (optional sign, digits with an optional
decimal point), producing the exact rational. -/
def pyParseFloatBody : List Char → Option Rat
  | l =>
    match l.span Char.isDigit with
    | (ipart, []) => (digitsToNat? ipart).map (fun n => (n : Rat))
    | (ipart, '.' :: fpart) =>
      if fpart.all Char.isDigit ∧ (ipart ≠ [] ∨ fpart ≠ []) then
        let i : Nat := (digitsToNat? ipart).getD 0
        let f : Nat := (digitsToNat? fpart).getD 0
        some (mkRat (i * 10 ^ fpart.length + f) (10 ^ fpart.length))
      else Option.none
    | _ => Option.none

def pyParseFloat (s : String) : Option Rat :=
  match s.data with
  | '+' :: rest => pyParseFloatBody rest
  | '-' :: rest => (pyParseFloatBody rest).map Neg.neg
  | l => pyParseFloatBody l

/-- The builtin `str` used as a parser: always succeeds. -/
def pyStrFn (v : PyVal) : Except PErr PyVal :=
  .ok (.str (pyStr v))

/-- The builtin `bool` used as a parser: truthiness, always succeeds. -/
def pyBoolFn (v : PyVal) : Except PErr PyVal :=
  .ok (.bool (pyTruthy v))

/-- The builtin `int` used as a parser. -/
def pyIntFn : PyVal → Except PErr PyVal
  | .int n => .ok (.int n)
  | .bool b => .ok (.int (if b then 1 else 0))
  | .float q => .ok (.int (Int.tdiv q.num q.den))
  | .str s =>
    match pyParseInt s with
    | some n => .ok (.int n)
    | _ => .error (.valueError ("invalid literal for int() with base 10: '" ++ s ++ "'"))
  | v => .error (.typeError ("int() argument must be a string, a bytes-like object or a real number, not '" ++ pyTypeName v ++ "'"))

/-- The builtin `float` used as a parser. -/
def pyFloatFn : PyVal → Except PErr PyVal
  | .float q => .ok (.float q)
  | .int n => .ok (.float (n : Rat))
  | .bool b => .ok (.float (if b then 1 else 0))
  | .str s =>
    match pyParseFloat s with
    | some q => .ok (.float q)
    | _ => .error (.valueError ("could not convert string to float: '" ++ s ++ "'"))
  | v => .error (.typeError ("float() argument must be a string or a real number, not '" ++ pyTypeName v ++ "'"))

/-- `str.join` over Python values: raises `TypeError` at the first
non-string item, exactly as CPython's `str.join` does. -/
def pyJoinItem (i : Nat) : PyVal → Except PErr String
  | .str s => .ok s
  | v => .error (.typeError ("sequence item " ++ toString i ++ ": expected str instance, " ++ pyTypeName v ++ " found"))

def pyJoinGo (sep : String) (i : Nat) : List PyVal → Except PErr String
  | [] => .ok ""
  | [v] => pyJoinItem i v
  | v :: w :: rest =>
    match pyJoinItem i v with
    | .error e => .error e
    | .ok s =>
      match pyJoinGo sep (i + 1) (w :: rest) with
      | .error e => .error e
      | .ok s' => .ok (s ++ sep ++ s')

/-- `sep.join(items)` where the items are arbitrary Python values. -/
def pyJoin (sep : String) (items : List PyVal) : Except PErr String :=
  pyJoinGo sep 0 items

/-!
## The annotation model (`cappa/annotation.py`)

`Ann` models a type annotation by the shape the dispatcher in `parse_value`
recognises.  The source's shape tests (`is_literal`, `is_union`,
`is_subtype_of`, ...) are mutually exclusive for every annotation this model
can express, so each shape is one constructor; `other` stands for any
annotation matching none of the recognised shapes, carrying the annotation
object itself as a callable (the source's identity fallback calls it) and
its `__name__`.  Bare unparameterised `list`/`set`/`tuple` annotations (on
which the source's `inner_types[0]` would raise `IndexError` at derivation
time) are not representable.
-/

/-- `FileMode` lives in `cappa.file_io`, which is not among the embedded
sources.  Modelled from the spec: a file-handle annotation carries an
open-mode; calling a `FileMode` on a value opens it as a file, modelled as
producing an opaque `PyVal.handle` tagged with the mode. -/
structure FileMode where
  mode : String
  deriving DecidableEq

/-- Calling a `FileMode` object on a raw value. -/
def FileMode.applyTo (fm : FileMode) (v : PyVal) : Except PErr PyVal :=
  .ok (.handle fm.mode v)

/-- A type annotation, by dispatch shape. -/
inductive Ann : Type where
  | str
  | bool
  | int
  | float
  | noneType
  | lit (args : List PyVal)
  | listOf (inner : Ann)
  | setOf (inner : Ann)
  | tupleOf (inners : List Ann)
  | vtupleOf (inner : Ann)
  | union (args : List Ann)
  | fileOf (binary : Bool) (metadata : List FileMode)
  | other (name : String) (call : PyVal → Except PErr PyVal)

/-- `annotation.annotation.__name__`, as `backend_type` renders it. -/
def Ann.typeName : Ann → String
  | .str => "str"
  | .bool => "bool"
  | .int => "int"
  | .float => "float"
  | .noneType => "NoneType"
  | .lit _ => "Literal"
  | .listOf _ => "list"
  | .setOf _ => "set"
  | .tupleOf _ => "tuple"
  | .vtupleOf _ => "tuple"
  | .union _ => "Union"
  | .fileOf binary _ => if binary then "BinaryIO" else "TextIO"
  | .other n _ => n

/-- The `type_priority` mapping of `annotation.py`, restricted to keys an
annotation object can actually equal.  The source table is
`\x7bNone: 0, ...: 1, float: 2, int: 3, bool: 4, str: 5\x7d`: its `None` key is
the *value* `None` and its `...` key the `Ellipsis` object, and neither ever
equals a member of a union's `args` (a `X | None` union carries the class
`NoneType`, a distinct object from `None`; `Ellipsis` cannot occur in a
union), so those two entries can never be hit by `type_priority_key` and
`NoneType` falls through to the lookup default. -/
def type_priority : Ann → Option Nat
  | .float => some 2
  | .int => some 3
  | .bool => some 4
  | .str => some 5
  | _ => Option.none

/-- `type_priority.get(type_, 1)`, the sort key inside `parse_union`. -/
def type_priority_key (t : Ann) : Nat :=
  (type_priority t).getD 1

/-- Stable insertion into a key-sorted list: the inserted element goes in
front of the first strictly-greater key, behind equal keys. -/
def stableInsertBy {α : Type} (key : α → Nat) (a : α) : List α → List α
  | [] => [a]
  | b :: rest => if key a ≤ key b then a :: b :: rest else b :: stableInsertBy key a rest

/-- Python's `sorted(..., key=...)`: a stable sort.  (Stable sorts agree
extensionally, so modelling Timsort by stable insertion sort is exact.) -/
def stableSortBy {α : Type} (key : α → Nat) : List α → List α
  | [] => []
  | a :: rest => stableInsertBy key a (stableSortBy key rest)

/-- `backend_type` (`cappa/typing.py`): a `Literal` renders as its first
argument *unconverted* (the source returns `annotation.args[0]` as-is, an
arbitrary value); anything else as `"<name>"`.  The source asserts literal
args nonempty; an empty `Literal` cannot be written in Python. -/
def backend_type : Ann → PyVal
  | .lit args => args.headD (.str "")
  | a => .str ("<" ++ a.typeName ++ ">")

/-- Is an exception caught by `parse_union`'s `except (ValueError, TypeError)`? -/
def PErr.caughtByUnion : PErr → Bool
  | .valueError _ => true
  | .typeError _ => true
  | .other _ => false

/-- A parse outcome `parse_union` treats as a failure to fall through. -/
def isCaught : Except PErr PyVal → Bool
  | .error e => e.caughtByUnion
  | .ok _ => false

/-- The body of `union_mapper`'s final `raise`: join the members' backend
renderings (which itself raises `TypeError` on a non-string rendering, before
the `ValueError` is ever constructed) and wrap them in the `ValueError`. -/
def union_fail_result (args : List Ann) (v : PyVal) : Except PErr PyVal :=
  match pyJoin ", " (args.map backend_type) with
  | .ok opts => .error (.valueError ("Could not parse '" ++ pyStr v ++ "' given options: " ++ opts))
  | .error e => .error e

/-- The scanning loop of `union_mapper`: return the first member parser
outcome that is not a `ValueError`/`TypeError`, else the all-failed result. -/
def unionScan (fallback : Except PErr PyVal) (v : PyVal) :
    List (Nat × (PyVal → Except PErr PyVal)) → Except PErr PyVal
  | [] => fallback
  | (_, m) :: rest =>
    match m v with
    | .ok r => .ok r
    | .error e => if e.caughtByUnion then unionScan fallback v rest else .error e

/-- `literal_mapper`'s fallback loop: the first deduplicated literal argument
whose `str(...)` rendering equals the input. -/
def findStrMatch (v : PyVal) : List PyVal → Option PyVal
  | [] => Option.none
  | t :: rest => if pyEq (.str (pyStr t)) v then some t else findStrMatch v rest

/-- `literal_mapper` of `parse_literal`: membership (by Python `==`) in the
deduplicated arguments returns the input unchanged; otherwise the first
argument whose string rendering equals the input; otherwise `ValueError`
listing the original (not deduplicated) arguments. -/
def literal_mapper (unique_type_args : List PyVal) (args : List PyVal) (value : PyVal) :
    Except PErr PyVal :=
  if pyMember value unique_type_args then .ok value
  else
    match findStrMatch value unique_type_args with
    | some t => .ok t
    | _ => .error (.valueError ("Invalid choice: '" ++ pyStr value ++ "' (choose from " ++ String.intercalate ", " (args.map pyStr) ++ ")"))

/-- `parse_literal`: builds `unique_type_args = set(annotation.args)` once and
closes over it. -/
def parse_literal (args : List PyVal) : PyVal → Except PErr PyVal :=
  literal_mapper (dedupPy args) args

/-- `map_none` of `parse_none`: accepts exactly `None`; any other value
raises `ValueError(value)` (whose `str` is the value's rendering). -/
def map_none : PyVal → Except PErr PyVal
  | .none => .ok .none
  | v => .error (.valueError (pyStr v))

/-- `parse_none`. -/
def parse_none : PyVal → Except PErr PyVal :=
  map_none

/-- `file_io_mapper` of `parse_file_io`: the first `FileMode` among the
annotation's metadata, else a default mode (with `"b"` appended for binary
handles), called on the value. -/
def file_io_mapper (binary : Bool) (metadata : List FileMode) (v : PyVal) :
    Except PErr PyVal :=
  match metadata.head? with
  | some fm => fm.applyTo v
  | _ => FileMode.applyTo ⟨if binary then "r" ++ "b" else "r"⟩ v

/-- `parse_file_io`. -/
def parse_file_io (binary : Bool) (metadata : List FileMode) : PyVal → Except PErr PyVal :=
  file_io_mapper binary metadata

/-- Element-wise parse of an iterated value (the list comprehension inside
`list_mapper` / `set_mapper`): the first element error propagates. -/
def mapElems (m : PyVal → Except PErr PyVal) : List PyVal → Except PErr (List PyVal)
  | [] => .ok []
  | x :: xs =>
    match m x with
    | .error e => .error e
    | .ok y =>
      match mapElems m xs with
      | .error e => .error e
      | .ok ys => .ok (y :: ys)

/-- Iterate the raw value and parse each element with the inner mapper. -/
def iterParse (m : PyVal → Except PErr PyVal) (v : PyVal) : Except PErr (List PyVal) :=
  match pyIterate v with
  | .error e => .error e
  | .ok xs => mapElems m xs

/-- `list_mapper` of `parse_list`. -/
def list_mapper (inner_mapper : PyVal → Except PErr PyVal) (v : PyVal) : Except PErr PyVal :=
  (iterParse inner_mapper v).map .list

/-- `set_mapper` of `parse_set`: a set comprehension deduplicates the parsed
elements. -/
def set_mapper (inner_mapper : PyVal → Except PErr PyVal) (v : PyVal) : Except PErr PyVal :=
  (iterParse inner_mapper v).map (fun xs => .set (dedupPy xs))

/-- `unbounded_tuple_mapper` of `parse_tuple` (variadic case): the list
mapper's result, converted to a tuple. -/
def unbounded_tuple_mapper (inner_mapper : PyVal → Except PErr PyVal) (v : PyVal) :
    Except PErr PyVal :=
  (iterParse inner_mapper v).map .tuple

mutual

/-- `parse_value`: the recursive-descent dispatcher of `annotation.py`.
Branches appear in the source's test order — literal, union, the
`(str, bool, int, float)` subtype test (each returning the builtin type
itself as the parser), `NoneType`, list, set, tuple (fixed and variadic),
text/binary file handles — and any other annotation is returned as its own
parser (`other` carries the annotation object as a callable). -/
def parse_value : Ann → PyVal → Except PErr PyVal
  | .lit args => parse_literal args
  | .union args => fun v =>
    unionScan (union_fail_result args v) v
      (stableSortBy (fun p => p.1) (parse_value_args args))
  | .str => pyStrFn
  | .bool => pyBoolFn
  | .int => pyIntFn
  | .float => pyFloatFn
  | .noneType => parse_none
  | .listOf inner => fun v => list_mapper (parse_value inner) v
  | .setOf inner => fun v => set_mapper (parse_value inner) v
  | .tupleOf inners => fun v =>
    match pyIterate v with
    | .error e => .error e
    | .ok xs => (parse_tuple_values inners xs).map .tuple
  | .vtupleOf inner => fun v => unbounded_tuple_mapper (parse_value inner) v
  | .fileOf binary metadata => parse_file_io binary metadata
  | .other _ call => call

/-- The member parsers of a union, in declaration order, each paired with its
`type_priority_key` (so that the stable sort over the pairs coincides with
the source's `sorted(args, key=type_priority_key)` before mapping). -/
def parse_value_args : List Ann → List (Nat × (PyVal → Except PErr PyVal))
  | [] => []
  | a :: rest => (type_priority_key a, parse_value a) :: parse_value_args rest

/-- `tuple_mapper`'s loop over `zip(annotation.inner_types, value)`:
parse positionally, stopping at the shorter of the two lists. -/
def parse_tuple_values : List Ann → List PyVal → Except PErr (List PyVal)
  | _, [] => .ok []
  | [], _ => .ok []
  | a :: rest, x :: xs =>
    match parse_value a x with
    | .error e => .error e
    | .ok y =>
      match parse_tuple_values rest xs with
      | .error e => .error e
      | .ok ys => .ok (y :: ys)

end

/-- `parse_union`, as `parse_value` invokes it on a union annotation. -/
def parse_union (args : List Ann) : PyVal → Except PErr PyVal :=
  fun v =>
    unionScan (union_fail_result args v) v
      (stableSortBy (fun p => p.1) (parse_value_args args))

/-- `parse_list`, as `parse_value` invokes it on a list annotation. -/
def parse_list (inner : Ann) : PyVal → Except PErr PyVal :=
  fun v => list_mapper (parse_value inner) v

/-- `parse_set`, as `parse_value` invokes it on a set annotation. -/
def parse_set (inner : Ann) : PyVal → Except PErr PyVal :=
  fun v => set_mapper (parse_value inner) v

/-- `tuple_mapper` of `parse_tuple` (fixed-arity case). -/
def tuple_mapper (inners : List Ann) (v : PyVal) : Except PErr PyVal :=
  match pyIterate v with
  | .error e => .error e
  | .ok xs => (parse_tuple_values inners xs).map .tuple

/-!
## The command model (`cappa/command.py`)

`command.py` is embedded with its collaborators that live outside the
embedded sources (`cappa/arg.py`, `cappa/subcommand.py`, `cappa/output.py`,
docstring parsing, class reflection) represented as data carried by the
model or as abstract functions supplied through `Externals`:

* `Group` (from `arg.py`): modelled from the spec — "every Argument's group
  identity must be consistent wherever the same group name recurs (checked
  by identity equality)".  A `Group` carries an object-identity tag `oid`
  besides its name, and equality of the Lean structure is object identity,
  so `check_group_identity`'s `identity != arg.group` compares identities.
* `Argument` models an `Arg` by exactly the attributes `command.py` reads:
  `field_name`, `names_str()` (pre-rendered), `default` (`Option`, `none`
  standing for the `missing` sentinel), `parse` (`Option`, `none` for an
  unset parser), `group`, and whether `action in ArgAction.value_actions()`.
* A `Subcommand` entry carries its `field_name`, its `options` mapping of
  discriminator names to nested `Command`s, and its own `map_result`
  function (defined in `subcommand.py`, outside the embedded sources, hence
  abstract here).
* `Exit` (from `output.py`) is a record of the message / exit code / prog
  the raise sites of `command.py` pass it.
* `Env` and prompt values can appear as parsed values in the source and are
  unwrapped before parsing; they are external effectful collaborators and
  not modelled (no verified claim mentions them), so parsed values here are
  plain `PyVal`s on which those two `isinstance` branches are no-ops.
-/

/-- Modelled from the spec: an argument `Group` (defined in `cappa/arg.py`,
not among the embedded sources).  `oid` is the object-identity tag: distinct
Python `Group` objects carry distinct `oid`s, so structure equality is
Python object identity, which the spec names as the comparison used by the
group-consistency check. -/
structure ArgGroup where
  oid : Nat
  name : String
  deriving DecidableEq

/-- `repr` of a `Group`, as interpolated into the mismatch `ValueError`. -/
def ArgGroup.reprStr (g : ArgGroup) : String :=
  "Group(name='" ++ g.name ++ "')"

/-- The `Exit` exception as `Command.map_result` raises it. -/
structure ExitE where
  message : Option String
  code : Nat
  prog : Option String
  deriving DecidableEq

/-- How the embedded `command.py` code can abort: by raising `Exit`, or by a
failing `assert` statement. -/
inductive MapError : Type where
  | exit (e : ExitE)
  | assertionError

/-- An `Arg`, by the attributes `command.py` reads. -/
structure Argument where
  field_name : String
  names_rendered : String
  default : Option PyVal
  parse : Option (PyVal → Except PErr PyVal)
  group : ArgGroup
  action_in_value_actions : Bool

/-- `str(e)` of a raised exception, as `map_result` interpolates it. -/
def PErr.text : PErr → String
  | .valueError m => m
  | .typeError m => m
  | .other m => m

/-- `bool | str`, the type of `Command.deprecated`. -/
inductive BoolOrStr : Type where
  | ofBool (b : Bool)
  | ofStr (s : String)
  deriving DecidableEq

/-- A dataclass field, as the collection loop walks them.  Its type hint is
consumed by the external `Arg.collect` / `Subcommand.collect` and so lives
behind `Externals`. -/
structure FieldSpec where
  fname : String

/-- The class behind a command (`cmd_cls`): its `__name__`, its constructor
(called with the mapped keyword arguments), and its dataclass fields.  The
docstring machinery and type hints are reached through `Externals`. -/
structure PyClass where
  clsName : String
  construct : List (String × PyVal) → PyVal
  fields : List FieldSpec

mutual

/-- `Command`: the schema dataclass of `command.py`, field for field. -/
inductive Command : Type where
  | mk (cmd_cls : PyClass) (arguments : List CmdArg) (name : Option String)
      (help : Option String) (description : Option String)
      (invoke : Option String) (hidden : Bool) (default_short : Bool)
      (default_long : Bool) (deprecated : BoolOrStr) (collected : Bool)

/-- One entry of `Command.arguments`: an `Arg` or a `Subcommand`. -/
inductive CmdArg : Type where
  | arg (a : Argument)
  | sub (field_name : String) (options : List SubOption)
      (map_fn : String → PyVal → Except MapError PyVal)

/-- One entry of a subcommand's `options` mapping: a discriminator name and
its nested `Command`. -/
inductive SubOption : Type where
  | mk (name : String) (cmd : Command)

end

def Command.cmd_cls : Command → PyClass
  | .mk c _ _ _ _ _ _ _ _ _ _ => c

def Command.arguments : Command → List CmdArg
  | .mk _ a _ _ _ _ _ _ _ _ _ => a

def Command.name : Command → Option String
  | .mk _ _ n _ _ _ _ _ _ _ _ => n

def Command.help : Command → Option String
  | .mk _ _ _ h _ _ _ _ _ _ _ => h

def Command.description : Command → Option String
  | .mk _ _ _ _ d _ _ _ _ _ _ => d

def Command.invoke : Command → Option String
  | .mk _ _ _ _ _ i _ _ _ _ _ => i

def Command.hidden : Command → Bool
  | .mk _ _ _ _ _ _ h _ _ _ _ => h

def Command.default_short : Command → Bool
  | .mk _ _ _ _ _ _ _ d _ _ _ => d

def Command.default_long : Command → Bool
  | .mk _ _ _ _ _ _ _ _ d _ _ => d

def Command.deprecated : Command → BoolOrStr
  | .mk _ _ _ _ _ _ _ _ _ d _ => d

/-- The private `_collected` flag. -/
def Command.collected : Command → Bool
  | .mk _ _ _ _ _ _ _ _ _ _ c => c

def SubOption.optName : SubOption → String
  | .mk n _ => n

def SubOption.optCmd : SubOption → Command
  | .mk _ c => c

/-- Python dict lookup on an association list. -/
def lookupVal : List (String × PyVal) → String → Option PyVal
  | [], _ => Option.none
  | (k, v) :: rest, k' => if k = k' then some v else lookupVal rest k'

/-- Python dict assignment `d[k] = v`: replace in place, else append. -/
def dictInsert : List (String × PyVal) → String → PyVal → List (String × PyVal)
  | [], k, v => [(k, v)]
  | (k', v') :: rest, k, v =>
    if k' = k then (k', v) :: rest else (k', v') :: dictInsert rest k v

/-- `Command.value_arguments`: every argument except the `Arg`s whose action
is in `ArgAction.value_actions()`. -/
def Command.value_arguments (c : Command) : List CmdArg :=
  c.arguments.filter fun a =>
    match a with
    | .arg x => !x.action_in_value_actions
    | .sub _ _ _ => true

/-- The per-`Arg` tail of the `map_result` loop body, after the raw value has
been resolved: `assert arg.parse`, convert through it, and re-raise any
exception as `Exit` code 2 with the user-facing message. -/
def argParseStep (prog : String) (a : Argument) (value : PyVal) :
    Except MapError PyVal :=
  match a.parse with
  | Option.none => .error .assertionError
  | some p =>
    match p value with
    | .error e =>
      .error (.exit ⟨some ("Invalid value for '" ++ a.names_rendered ++ "': " ++ e.text), 2, some prog⟩)
    | .ok v => .ok v

/-- The `for arg in self.value_arguments()` loop of `Command.map_result`,
accumulating the `kwargs` dict: an absent subcommand field is skipped, an
absent argument falls back to its default (`assert`ing one exists), each
`Arg` value goes through `argParseStep`, and each subcommand value through
the subcommand's own `map_result`. -/
def buildKwargs (prog : String) (parsed_args : List (String × PyVal)) :
    List CmdArg → List (String × PyVal) → Except MapError (List (String × PyVal))
  | [], kwargs => .ok kwargs
  | .sub fn _ map_fn :: rest, kwargs =>
    match lookupVal parsed_args fn with
    | Option.none => buildKwargs prog parsed_args rest kwargs
    | some value =>
      match map_fn prog value with
      | .error e => .error e
      | .ok v => buildKwargs prog parsed_args rest (dictInsert kwargs fn v)
  | .arg a :: rest, kwargs =>
    match lookupVal parsed_args a.field_name with
    | Option.none =>
      match a.default with
      | Option.none => .error .assertionError
      | some d =>
        match argParseStep prog a d with
        | .error e => .error e
        | .ok v => buildKwargs prog parsed_args rest (dictInsert kwargs a.field_name v)
    | some value =>
      match argParseStep prog a value with
      | .error e => .error e
      | .ok v => buildKwargs prog parsed_args rest (dictInsert kwargs a.field_name v)

/-- `Command.map_result(self, command, prog, parsed_args)`: build the kwargs
from `self.value_arguments()` and call `command.cmd_cls(**kwargs)`. -/
def Command.map_result (self command : Command) (prog : String)
    (parsed_args : List (String × PyVal)) : Except MapError PyVal :=
  (buildKwargs prog parsed_args self.value_arguments []).map
    (fun kwargs => command.cmd_cls.construct kwargs)

/-- Dict lookup for the `group_identity` accumulator. -/
def lookupGroup : List (String × ArgGroup) → String → Option ArgGroup
  | [], _ => Option.none
  | (k, g) :: rest, k' => if k = k' then some g else lookupGroup rest k'

/-- Dict assignment for the `group_identity` accumulator. -/
def dictInsertGroup : List (String × ArgGroup) → String → ArgGroup → List (String × ArgGroup)
  | [], k, g => [(k, g)]
  | (k', g') :: rest, k, g =>
    if k' = k then (k', g) :: rest else (k', g') :: dictInsertGroup rest k g

/-- The loop of `check_group_identity`, carrying the `group_identity` dict:
subcommands are skipped; a previously seen group name whose recorded group
is a different object raises `ValueError`; otherwise the name is (re)bound.
(The source guard is `if identity and identity != arg.group`: a recorded
`Group` object is always truthy, so the `identity` conjunct only
distinguishes a missing entry, which the `Option` match renders.) -/
def check_group_identity_go :
    List CmdArg → List (String × ArgGroup) → Except String Unit
  | [], _ => .ok ()
  | .sub _ _ _ :: rest, acc => check_group_identity_go rest acc
  | .arg a :: rest, acc =>
    match lookupGroup acc a.group.name with
    | some identity =>
      if identity ≠ a.group then
        .error ("Group details between `" ++ identity.reprStr ++ "` and `" ++ a.group.reprStr ++ "` must match")
      else check_group_identity_go rest (dictInsertGroup acc a.group.name a.group)
    | Option.none => check_group_identity_go rest (dictInsertGroup acc a.group.name a.group)

/-- `check_group_identity`. -/
def check_group_identity (args : List CmdArg) : Except String Unit :=
  check_group_identity_go args []

/-- The external collaborators `Command.collect` calls into, none of which
are defined in the embedded sources: docstring parsing (`docstring_parser`
or the `inspect.cleandoc` fallback, returning the per-field help map, the
summary and the body), `Arg.normalize` / `Subcommand.normalize`,
`class_inspect.fields` + `get_type_hints` driven `Arg.collect` and
`Subcommand.collect`. -/
structure Externals where
  parse_doc : PyClass → List (String × String) × String × String
  normalizeArg : Bool → Bool → Argument → Argument
  normalizeSub : String → List SubOption →
    (String → PyVal → Except MapError PyVal) →
    String × List SubOption × (String → PyVal → Except MapError PyVal)
  collectSub : FieldSpec → Option (String × List SubOption × (String → PyVal → Except MapError PyVal))
  collectArgs : FieldSpec → Option String → Bool → Bool → List Argument

/-- Python truthiness of an optional string attribute (`None` and `""` are
falsy). -/
def optTruthy : Option String → Bool
  | Option.none => false
  | some s => s != ""

/-- String-keyed lookup for the `arg_help_map`. -/
def lookupStr : List (String × String) → String → Option String
  | [], _ => Option.none
  | (k, v) :: rest, k' => if k = k' then some v else lookupStr rest k'

/-- The explicit-arguments branch of `Command.collect`: normalize each
entry (`Arg`s with the command's default short/long flags, subcommands
plainly). -/
def normalizeEntry (ext : Externals) (ds dl : Bool) : CmdArg → CmdArg
  | .arg a => .arg (ext.normalizeArg ds dl a)
  | .sub fn opts mf =>
    match ext.normalizeSub fn opts mf with
    | (fn', opts', mf') => .sub fn' opts' mf'

/-- The field-walking branch of `Command.collect`: each field becomes a
subcommand entry if `Subcommand.collect` recognises it, else the `Arg`s
`Arg.collect` derives for it (with the field's docstring help as fallback). -/
def collectFromFields (ext : Externals) (argHelpMap : List (String × String))
    (ds dl : Bool) : List FieldSpec → List CmdArg
  | [] => []
  | f :: rest =>
    match ext.collectSub f with
    | some (fn, opts, mf) => .sub fn opts mf :: collectFromFields ext argHelpMap ds dl rest
    | Option.none =>
      (ext.collectArgs f (lookupStr argHelpMap f.fname) ds dl).map .arg
        ++ collectFromFields ext argHelpMap ds dl rest

/-- The `arguments` list `Command.collect` computes and then validates. -/
def collect_arguments (ext : Externals) (c : Command) : List CmdArg :=
  let docNeeded := !(optTruthy c.help && optTruthy c.description)
  let argHelpMap := if docNeeded then (ext.parse_doc c.cmd_cls).1 else []
  if c.arguments.isEmpty then
    collectFromFields ext argHelpMap c.default_short c.default_long c.cmd_cls.fields
  else
    c.arguments.map (normalizeEntry ext c.default_short c.default_long)

/-- `Command.collect`: fill in help/description from the (externally parsed)
docstring when not already truthy, compute the arguments, check group
identities (propagating the `ValueError`), and return a structural replace
of the given command. -/
def Command.collect (ext : Externals) (c : Command) : Except String Command :=
  let docNeeded := !(optTruthy c.help && optTruthy c.description)
  let parsed := ext.parse_doc c.cmd_cls
  let newHelp := if docNeeded && !(optTruthy c.help) then some parsed.2.1 else c.help
  let newDescription :=
    if docNeeded && !(optTruthy c.description) then some parsed.2.2 else c.description
  let args := collect_arguments ext c
  match check_group_identity args with
  | .error e => .error e
  | .ok _ =>
    .ok (.mk c.cmd_cls args c.name newHelp newDescription c.invoke c.hidden
      c.default_short c.default_long c.deprecated c.collected)

mutual

/-- `Command.add_meta_actions`: a collected command is returned as-is;
otherwise, when a help `Arg` is supplied, each subcommand's options get the
meta actions added recursively, the supplied help/version/completion `Arg`s
are appended, and the copy is marked collected. -/
def Command.add_meta_actions (h v cp : Option Argument) : Command → Command
  | .mk cls args nm hp ds iv hd dsh dlg dep col =>
    if col then .mk cls args nm hp ds iv hd dsh dlg dep col
    else
      let base := addMetaToArgs h args
      let withHelp := match h with | some a => base ++ [.arg a] | Option.none => base
      let withVersion := match v with | some a => withHelp ++ [.arg a] | Option.none => withHelp
      let withCompletion :=
        match cp with | some a => withVersion ++ [.arg a] | Option.none => withVersion
      .mk cls withCompletion nm hp ds iv hd dsh dlg dep true

/-- The arguments comprehension of `add_meta_actions`: subcommand entries
have their options rebuilt when a help `Arg` is present, everything else is
kept as-is. -/
def addMetaToArgs (h : Option Argument) : List CmdArg → List CmdArg
  | [] => []
  | .arg a :: rest => .arg a :: addMetaToArgs h rest
  | .sub fn opts mf :: rest =>
    (if h.isSome then .sub fn (addMetaToOptions h opts) mf else .sub fn opts mf)
      :: addMetaToArgs h rest

/-- `option.add_meta_actions(help)` over a subcommand's options mapping. -/
def addMetaToOptions (h : Option Argument) : List SubOption → List SubOption
  | [] => []
  | .mk n c :: rest => .mk n (Command.add_meta_actions h Option.none Option.none c) :: addMetaToOptions h rest

end

/-- The regex substitution of `Command.real_name` on the class name's
characters: insert a dash before every uppercase character that is not the
first character, then lowercase everything. -/
def dashInsertTail : List Char → List Char
  | [] => []
  | c :: rest =>
    (if 'A' ≤ c ∧ c ≤ 'Z' then ['-', c] else [c]) ++ dashInsertTail rest

/-- `re.sub(r"(?<!^)(?=[A-Z])", "-", cls_name).lower()` over the character
list (the lookbehind exempts only the first position). -/
def dashCaseChars : List Char → List Char
  | [] => []
  | c :: rest => (c :: dashInsertTail rest).map Char.toLower

/-- `Command.real_name`: an explicit name wins (compared against `None`, so
an empty string is returned as-is); otherwise the dash-cased class name. -/
def Command.real_name (c : Command) : String :=
  match c.name with
  | some n => n
  | Option.none => String.mk (dashCaseChars c.cmd_cls.clsName.data)

/-!
## Claim-side definitions and concrete fixtures

Definitions in this section render the spec's words (for refinement-style
claims) or provide closed inputs for evaluating the embedded code.
-/

/-- Decidable test for the `NoneType` shape. -/
def Ann.isNoneTypeB : Ann → Bool
  | .noneType => true
  | _ => false

/-- Does a parse outcome carry a `ValueError`? -/
def returns_value_error : Except PErr PyVal → Bool
  | .error (.valueError _) => true
  | _ => false

/-- The groups of the `Arg` entries, in order (subcommands skipped). -/
def argGroups (args : List CmdArg) : List ArgGroup :=
  args.filterMap fun e =>
    match e with
    | .arg a => some a.group
    | .sub _ _ _ => Option.none

/-- The raw value of an argument: the parsed value when present, else the
declared default. -/
def rawValueOf (pargs : List (String × PyVal)) (a : Argument) : Option PyVal :=
  match lookupVal pargs a.field_name with
  | some v => some v
  | Option.none => a.default

/-- Successful conversion of a raw value by the argument's parse function. -/
def spec_convert (a : Argument) (raw : PyVal) : Option PyVal :=
  match a.parse with
  | some p => (p raw).toOption
  | Option.none => Option.none

/-- Claim-side rendering of result mapping: each non-subcommand argument's
raw value (parsed, else default) converted by that Argument's parse
function, each subcommand value dispatched through the subcommand's own
`map_result`, the keyword arguments being exactly those values; `none` when
some step has no successful outcome. -/
def spec_mapped_kwargs (prog : String) (pargs : List (String × PyVal)) :
    List CmdArg → List (String × PyVal) → Option (List (String × PyVal))
  | [], kwargs => some kwargs
  | .sub fn _ mf :: rest, kwargs =>
    match lookupVal pargs fn with
    | Option.none => spec_mapped_kwargs prog pargs rest kwargs
    | some value =>
      match mf prog value with
      | .ok r => spec_mapped_kwargs prog pargs rest (dictInsert kwargs fn r)
      | .error _ => Option.none
  | .arg a :: rest, kwargs =>
    match rawValueOf pargs a with
    | some raw =>
      match spec_convert a raw with
      | some v => spec_mapped_kwargs prog pargs rest (dictInsert kwargs a.field_name v)
      | Option.none => Option.none
    | Option.none => Option.none

/-- Claim-side dash-casing of the characters after the first: every
uppercase letter is rendered with a dash before it, and every character is
lowercased. -/
def spec_dash_tail : List Char → List Char
  | [] => []
  | d :: rest =>
    (if 'A' ≤ d ∧ d ≤ 'Z' then ['-', Char.toLower d] else [Char.toLower d])
      ++ spec_dash_tail rest

/-- Claim-side dash-casing: the first character is only lowercased (never
dashed), the tail is dash-cased. -/
def spec_dash_case : List Char → List Char
  | [] => []
  | c :: rest => Char.toLower c :: spec_dash_tail rest

/-- Group-name consistency of a list of groups against the accumulator dict. -/
def GroupsCompat (acc : List (String × ArgGroup)) (gs : List ArgGroup) : Prop :=
  ∀ g ∈ gs, ∀ g', lookupGroup acc g.name = some g' → g' = g

/-- A concrete `Externals` instance: trivial docstring parse, identity
normalization, no subcommand fields, no derived args. -/
def extId : Externals :=
  ⟨fun _ => ([], "summary text", "body text"),
    fun _ _ a => a,
    fun fn opts mf => (fn, opts, mf),
    fun _ => Option.none,
    fun _ _ _ _ => []⟩

/-- A concrete command class whose constructor tuples up its keyword
argument values. -/
def clsABC : PyClass :=
  ⟨"MyCmdABC", fun kwargs => .list (kwargs.map Prod.snd), []⟩

/-- A bare command over `clsABC`. -/
def cmdABC : Command :=
  .mk clsABC [] Option.none Option.none Option.none Option.none false false
    false (.ofBool false) false

/-- A collected (meta-actions-frozen) command over `clsABC`. -/
def cmdCollectedABC : Command :=
  .mk clsABC [] Option.none (some "h") (some "d") Option.none false false
    false (.ofBool false) true

/-- An int-parsed argument without a default. -/
def argNum : Argument :=
  ⟨"num", "--num", Option.none, some pyIntFn, ⟨0, "general"⟩, false⟩

/-- An int-parsed argument defaulting to the string `"7"`. -/
def argNumDefault : Argument :=
  ⟨"num", "--num", some (.str "7"), some pyIntFn, ⟨0, "general"⟩, false⟩

/-- A subcommand entry whose own `map_result` is the identity on values. -/
def subSC : CmdArg :=
  .sub "sc" [] (fun _ w => .ok w)

/-- A command carrying one value argument and one subcommand. -/
def cmdWithArgs : Command :=
  .mk clsABC [.arg argNum, subSC] Option.none (some "h") (some "d")
    Option.none false false false (.ofBool false) false

/-- A command whose two arguments carry distinct (by identity) groups that
share the name `"g"`. -/
def cmdBadGroups : Command :=
  .mk clsABC
    [.arg ⟨"x", "--x", Option.none, some pyIntFn, ⟨1, "g"⟩, false⟩,
      .arg ⟨"y", "--y", Option.none, some pyIntFn, ⟨2, "g"⟩, false⟩]
    Option.none (some "h") (some "d") Option.none false false false
    (.ofBool false) false

/-!
## Supporting lemmas
-/

example : pyJoin ", " [.str "a", .str "b"] = .ok "a, b" := rfl

example : pyJoin ", " [.str "<int>", .int 5]
    = .error (.typeError "sequence item 1: expected str instance, int found") := rfl

example : parse_value (.union [.int, .noneType]) .none = .ok .none := rfl

example : parse_value (.union [.int, .noneType]) (.str "41") = .ok (.int 41) := rfl

example : parse_value (.lit [.str "one", .str "two"]) (.str "two") = .ok (.str "two") := rfl

example : parse_value (.listOf .int) (.list [.str "3", .str "4"])
    = .ok (.list [.int 3, .int 4]) := rfl

example : parse_value (.union [.int, .lit [.int 5]]) (.str "abc")
    = .error (.typeError "sequence item 1: expected str instance, int found") := rfl

example : Command.real_name (.mk ⟨"MyCmdABC", fun _ => .none, []⟩ [] Option.none
    Option.none Option.none Option.none false false false (.ofBool false) false)
    = "my-cmd-a-b-c" := rfl


theorem stableInsertBy_perm {α : Type} (key : α → Nat) (a : α) :
    ∀ l : List α, (stableInsertBy key a l).Perm (a :: l) := by
  intro l
  induction l with
  | nil => simp [stableInsertBy]
  | cons b rest ih =>
    simp only [stableInsertBy]
    split
    · exact List.Perm.refl _
    · exact (ih.cons b).trans (List.Perm.swap a b rest)

theorem stableSortBy_perm {α : Type} (key : α → Nat) :
    ∀ l : List α, (stableSortBy key l).Perm l := by
  intro l
  induction l with
  | nil => simp [stableSortBy]
  | cons a rest ih =>
    simp only [stableSortBy]
    exact (stableInsertBy_perm key a _).trans (ih.cons a)

theorem mem_stableInsertBy {α : Type} {key : α → Nat} {a x : α} {l : List α}
    (h : x ∈ stableInsertBy key a l) : x = a ∨ x ∈ l := by
  have := (stableInsertBy_perm key a l).mem_iff.mp h
  simpa using this

theorem stableInsertBy_pairwise {α : Type} (key : α → Nat) (a : α) :
    ∀ l : List α, l.Pairwise (fun x y => key x ≤ key y) →
      (stableInsertBy key a l).Pairwise (fun x y => key x ≤ key y) := by
  intro l
  induction l with
  | nil => intro _; simp [stableInsertBy]
  | cons b rest ih =>
    intro hp
    rw [List.pairwise_cons] at hp
    obtain ⟨hb, hrest⟩ := hp
    simp only [stableInsertBy]
    split
    · rename_i hle
      refine List.pairwise_cons.mpr ⟨?_, List.pairwise_cons.mpr ⟨hb, hrest⟩⟩
      intro y hy
      rcases List.mem_cons.mp hy with rfl | hy'
      · exact hle
      · exact le_trans hle (hb y hy')
    · rename_i hgt
      refine List.pairwise_cons.mpr ⟨?_, ih hrest⟩
      intro y hy
      rcases mem_stableInsertBy hy with rfl | hy'
      · omega
      · exact hb y hy'

theorem stableSortBy_pairwise {α : Type} (key : α → Nat) :
    ∀ l : List α, (stableSortBy key l).Pairwise (fun x y => key x ≤ key y) := by
  intro l
  induction l with
  | nil => simp [stableSortBy]
  | cons a rest ih =>
    simp only [stableSortBy]
    exact stableInsertBy_pairwise key a _ ih

theorem stableInsertBy_map {α β : Type} (key : α → Nat) (g : α → β) (keyB : β → Nat)
    (hkey : ∀ x, keyB (g x) = key x) (a : α) :
    ∀ l : List α,
      stableInsertBy keyB (g a) (l.map g) = (stableInsertBy key a l).map g := by
  intro l
  induction l with
  | nil => simp [stableInsertBy]
  | cons b rest ih =>
    simp only [List.map_cons, stableInsertBy, hkey]
    split
    · simp
    · simp [ih]

theorem stableSortBy_map {α β : Type} (key : α → Nat) (g : α → β) (keyB : β → Nat)
    (hkey : ∀ x, keyB (g x) = key x) :
    ∀ l : List α, stableSortBy keyB (l.map g) = (stableSortBy key l).map g := by
  intro l
  induction l with
  | nil => simp [stableSortBy]
  | cons a rest ih =>
    simp only [List.map_cons, stableSortBy]
    rw [ih, stableInsertBy_map key g keyB hkey]

theorem parse_value_args_eq :
    ∀ args : List Ann,
      parse_value_args args = args.map (fun a => (type_priority_key a, parse_value a)) := by
  intro args
  induction args with
  | nil => simp [parse_value_args]
  | cons a rest ih => simp [parse_value_args, ih]

theorem unionScan_append_caught (fb : Except PErr PyVal) (v : PyVal) :
    ∀ preP rest, (∀ p ∈ preP, isCaught (p.2 v) = true) →
      unionScan fb v (preP ++ rest) = unionScan fb v rest := by
  intro preP
  induction preP with
  | nil => intro rest _; rfl
  | cons p ps ih =>
    intro rest h
    obtain ⟨k, m⟩ := p
    have hm : isCaught (m v) = true := h (k, m) (List.mem_cons_self _ _)
    simp only [List.cons_append, unionScan]
    cases hmv : m v with
    | ok r => simp [isCaught, hmv] at hm
    | error e =>
      have he : e.caughtByUnion = true := by simpa [isCaught, hmv] using hm
      simp only [he, if_true]
      exact ih rest (fun q hq => h q (List.mem_cons_of_mem _ hq))

theorem unionScan_cons_pass (fb : Except PErr PyVal) (v : PyVal) (k : Nat)
    (m : PyVal → Except PErr PyVal) (rest : List (Nat × (PyVal → Except PErr PyVal)))
    (h : isCaught (m v) = false) :
    unionScan fb v ((k, m) :: rest) = m v := by
  simp only [unionScan]
  cases hmv : m v with
  | ok r => rfl
  | error e =>
    have : e.caughtByUnion = false := by simpa [isCaught, hmv] using h
    simp [this]

theorem unionScan_all_caught (fb : Except PErr PyVal) (v : PyVal) :
    ∀ l, (∀ p ∈ l, isCaught (p.2 v) = true) → unionScan fb v l = fb := by
  intro l h
  have := unionScan_append_caught fb v l [] h
  simpa using this

theorem exists_first_split {α : Type} (P : α → Bool) :
    ∀ l : List α, (∃ x ∈ l, P x = true) →
      ∃ pre a post, l = pre ++ a :: post ∧ P a = true ∧ ∀ b ∈ pre, P b = false := by
  intro l
  induction l with
  | nil => intro h; simp at h
  | cons x rest ih =>
    intro h
    cases hx : P x with
    | true => exact ⟨[], x, rest, rfl, hx, by simp⟩
    | false =>
      have hrest : ∃ y ∈ rest, P y = true := by
        obtain ⟨y, hy, hPy⟩ := h
        rcases List.mem_cons.mp hy with rfl | hy'
        · rw [hx] at hPy; cases hPy
        · exact ⟨y, hy', hPy⟩
      obtain ⟨pre, a, post, heq, hPa, hpre⟩ := ih hrest
      refine ⟨x :: pre, a, post, by simp [heq], hPa, ?_⟩
      intro b hb
      rcases List.mem_cons.mp hb with rfl | hb'
      · exact hx
      · exact hpre b hb'

/-- The common scanning fact behind the union claims: if the stable sort of
the members puts `a` after a prefix whose parsers all fail with
`ValueError`/`TypeError` on `v`, and `a`'s parser does not so fail, the
union parser returns exactly `a`'s parser's outcome. -/
theorem parse_union_first_pass (args : List Ann) (v : PyVal)
    (pre : List Ann) (a : Ann) (post : List Ann)
    (hsplit : stableSortBy type_priority_key args = pre ++ a :: post)
    (hpre : ∀ b ∈ pre, isCaught (parse_value b v) = true)
    (ha : isCaught (parse_value a v) = false) :
    parse_union args v = parse_value a v := by
  have hmap : stableSortBy (fun p => p.1) (parse_value_args args)
      = (stableSortBy type_priority_key args).map
          (fun a => (type_priority_key a, parse_value a)) := by
    rw [parse_value_args_eq]
    exact stableSortBy_map type_priority_key
      (fun a => (type_priority_key a, parse_value a)) (fun p => p.1) (fun _ => rfl) args
  show unionScan (union_fail_result args v) v
      (stableSortBy (fun p => p.1) (parse_value_args args)) = parse_value a v
  rw [hmap, hsplit, List.map_append, List.map_cons]
  rw [unionScan_append_caught _ _ _ _ ?hpre]
  case hpre =>
    intro p hp
    obtain ⟨b, hb, rfl⟩ := List.mem_map.mp hp
    exact hpre b hb
  exact unionScan_cons_pass _ _ _ _ _ ha

/-- The all-members-fail fact behind the union claims. -/
theorem parse_union_all_caught (args : List Ann) (v : PyVal)
    (h : ∀ a ∈ args, isCaught (parse_value a v) = true) :
    parse_union args v = union_fail_result args v := by
  have hmap : stableSortBy (fun p => p.1) (parse_value_args args)
      = (stableSortBy type_priority_key args).map
          (fun a => (type_priority_key a, parse_value a)) := by
    rw [parse_value_args_eq]
    exact stableSortBy_map type_priority_key
      (fun a => (type_priority_key a, parse_value a)) (fun p => p.1) (fun _ => rfl) args
  show unionScan (union_fail_result args v) v
      (stableSortBy (fun p => p.1) (parse_value_args args)) = union_fail_result args v
  rw [hmap]
  apply unionScan_all_caught
  intro p hp
  obtain ⟨b, hb, rfl⟩ := List.mem_map.mp hp
  exact h b ((stableSortBy_perm type_priority_key args).mem_iff.mp hb)

theorem Ann.isNoneTypeB_iff : ∀ a : Ann, a.isNoneTypeB = true ↔ a = .noneType := by
  intro a
  cases a <;> simp [Ann.isNoneTypeB]

theorem type_priority_key_pos : ∀ a : Ann, 1 ≤ type_priority_key a := by
  intro a
  cases a <;> simp [type_priority_key, type_priority]

theorem lookupVal_dictInsert (k k' : String) (v : PyVal) :
    ∀ m : List (String × PyVal),
      lookupVal (dictInsert m k v) k' = if k = k' then some v else lookupVal m k' := by
  intro m
  induction m with
  | nil => by_cases h : k = k' <;> simp [dictInsert, lookupVal, h]
  | cons p rest ih =>
    obtain ⟨k₀, v₀⟩ := p
    by_cases h0 : k₀ = k
    · subst h0
      by_cases h : k₀ = k' <;> simp [dictInsert, lookupVal, h]
    · by_cases h : k₀ = k'
      · subst h
        have hk : ¬ k = k₀ := fun hkk => h0 hkk.symm
        simp [dictInsert, lookupVal, h0, hk]
      · simp [dictInsert, lookupVal, h0, h, ih]

theorem buildKwargs_append_ok (prog : String) (pargs : List (String × PyVal)) :
    ∀ (l1 l2 : List CmdArg) (kwargs k : List (String × PyVal)),
      buildKwargs prog pargs l1 kwargs = .ok k →
      buildKwargs prog pargs (l1 ++ l2) kwargs = buildKwargs prog pargs l2 k := by
  intro l1
  induction l1 with
  | nil =>
    intro l2 kwargs k h
    simp only [buildKwargs] at h
    cases h
    rfl
  | cons e rest ih =>
    intro l2 kwargs k h
    cases e with
    | sub fn opts mf =>
      cases hv : lookupVal pargs fn with
      | none =>
        simp only [buildKwargs, List.cons_append, hv] at h ⊢
        exact ih l2 kwargs k h
      | some value =>
        cases hm : mf prog value with
        | error err =>
          simp only [buildKwargs, List.cons_append, hv, hm] at h
          exact Except.noConfusion h
        | ok r =>
          simp only [buildKwargs, List.cons_append, hv, hm] at h ⊢
          exact ih l2 _ k h
    | arg a =>
      cases hv : lookupVal pargs a.field_name with
      | none =>
        cases hd : a.default with
        | none =>
          simp only [buildKwargs, List.cons_append, hv, hd] at h
          exact Except.noConfusion h
        | some d =>
          cases hs : argParseStep prog a d with
          | error err =>
            simp only [buildKwargs, List.cons_append, hv, hd, hs] at h
            exact Except.noConfusion h
          | ok r =>
            simp only [buildKwargs, List.cons_append, hv, hd, hs] at h ⊢
            exact ih l2 _ k h
      | some value =>
        cases hs : argParseStep prog a value with
        | error err =>
          simp only [buildKwargs, List.cons_append, hv, hs] at h
          exact Except.noConfusion h
        | ok r =>
          simp only [buildKwargs, List.cons_append, hv, hs] at h ⊢
          exact ih l2 _ k h

theorem findStrMatch_append_none (v : PyVal) :
    ∀ pre rest, (∀ b ∈ pre, pyEq (.str (pyStr b)) v = false) →
      findStrMatch v (pre ++ rest) = findStrMatch v rest := by
  intro pre
  induction pre with
  | nil => intro rest _; rfl
  | cons b bs ih =>
    intro rest h
    have hb := h b (List.mem_cons_self _ _)
    simp only [List.cons_append, findStrMatch, hb]
    simp only [Bool.false_eq_true, if_false]
    exact ih rest (fun x hx => h x (List.mem_cons_of_mem _ hx))

theorem findStrMatch_all_none (v : PyVal) :
    ∀ l, (∀ b ∈ l, pyEq (.str (pyStr b)) v = false) → findStrMatch v l = Option.none := by
  intro l h
  have := findStrMatch_append_none v l [] h
  simpa using this

theorem lookupGroup_dictInsertGroup (k k' : String) (g : ArgGroup) :
    ∀ acc : List (String × ArgGroup),
      lookupGroup (dictInsertGroup acc k g) k'
        = if k = k' then some g else lookupGroup acc k' := by
  intro acc
  induction acc with
  | nil => by_cases h : k = k' <;> simp [dictInsertGroup, lookupGroup, h]
  | cons p rest ih =>
    obtain ⟨k₀, g₀⟩ := p
    by_cases h0 : k₀ = k
    · subst h0
      by_cases h : k₀ = k' <;> simp [dictInsertGroup, lookupGroup, h]
    · by_cases h : k₀ = k'
      · subst h
        have hk : ¬ k = k₀ := fun hkk => h0 hkk.symm
        simp [dictInsertGroup, lookupGroup, h0, hk]
      · simp [dictInsertGroup, lookupGroup, h0, h, ih]

theorem groups_compat_insert_iff (acc : List (String × ArgGroup)) (a : Argument)
    (gs : List ArgGroup)
    (hl : lookupGroup acc a.group.name = Option.none ∨
      lookupGroup acc a.group.name = some a.group) :
    (gs.Pairwise (fun g1 g2 => g1.name = g2.name → g1 = g2) ∧
        GroupsCompat (dictInsertGroup acc a.group.name a.group) gs) ↔
      ((a.group :: gs).Pairwise (fun g1 g2 => g1.name = g2.name → g1 = g2) ∧
        GroupsCompat acc (a.group :: gs)) := by
  constructor
  · rintro ⟨hpair, hcompat⟩
    refine ⟨List.pairwise_cons.mpr ⟨?_, hpair⟩, ?_⟩
    · intro g hgmem hname
      have := hcompat g hgmem a.group
      rw [lookupGroup_dictInsertGroup, if_pos hname] at this
      exact this rfl
    · intro g hgmem g' hlook
      rcases List.mem_cons.mp hgmem with rfl | hmem
      · rcases hl with hnone | hsome
        · rw [hlook] at hnone
          exact Option.noConfusion hnone
        · rw [hlook] at hsome
          exact Option.some.inj hsome
      · by_cases hn : a.group.name = g.name
        · have hga : a.group = g := by
            have := hcompat g hmem a.group
            rw [lookupGroup_dictInsertGroup, if_pos hn] at this
            exact this rfl
          rw [← hn] at hlook
          rcases hl with hnone | hsome
          · rw [hlook] at hnone
            exact Option.noConfusion hnone
          · rw [hlook] at hsome
            rw [Option.some.inj hsome]
            exact hga
        · have := hcompat g hmem g'
          rw [lookupGroup_dictInsertGroup, if_neg hn] at this
          exact this hlook
  · rintro ⟨hpairCons, hcompatCons⟩
    obtain ⟨hhead, hpair⟩ := List.pairwise_cons.mp hpairCons
    refine ⟨hpair, ?_⟩
    intro g hgmem g' hlook
    rw [lookupGroup_dictInsertGroup] at hlook
    by_cases hn : a.group.name = g.name
    · rw [if_pos hn] at hlook
      rw [← Option.some.inj hlook]
      exact hhead g hgmem hn
    · rw [if_neg hn] at hlook
      exact hcompatCons g (List.mem_cons_of_mem _ hgmem) g' hlook

/-- The loop invariant of `check_group_identity`: it succeeds exactly when
the groups are pairwise name-consistent and consistent with what the
accumulator has already recorded. -/
theorem check_group_identity_go_iff :
    ∀ (args : List CmdArg) (acc : List (String × ArgGroup)),
      check_group_identity_go args acc = .ok () ↔
        ((argGroups args).Pairwise (fun g1 g2 => g1.name = g2.name → g1 = g2) ∧
          GroupsCompat acc (argGroups args)) := by
  intro args
  induction args with
  | nil =>
    intro acc
    simp [check_group_identity_go, argGroups, GroupsCompat]
  | cons e rest ih =>
    intro acc
    cases e with
    | sub fn opts mf =>
      have hg : argGroups (CmdArg.sub fn opts mf :: rest) = argGroups rest := by
        simp [argGroups]
      rw [show check_group_identity_go (CmdArg.sub fn opts mf :: rest) acc
            = check_group_identity_go rest acc from rfl, hg]
      exact ih acc
    | arg a =>
      have hg : argGroups (CmdArg.arg a :: rest) = a.group :: argGroups rest := by
        simp [argGroups]
      rw [hg]
      cases hl : lookupGroup acc a.group.name with
      | some identity =>
        by_cases hid : identity = a.group
        · subst hid
          have hstep : check_group_identity_go (CmdArg.arg a :: rest) acc
              = check_group_identity_go rest (dictInsertGroup acc a.group.name a.group) := by
            simp [check_group_identity_go, hl]
          rw [hstep, ih]
          exact groups_compat_insert_iff acc a (argGroups rest) (Or.inr hl)
        · constructor
          · intro h
            exfalso
            simp [check_group_identity_go, hl, hid] at h
          · rintro ⟨hpair, hcompat⟩
            exact absurd (hcompat a.group (List.mem_cons_self _ _) identity hl) hid
      | none =>
        have hstep : check_group_identity_go (CmdArg.arg a :: rest) acc
            = check_group_identity_go rest (dictInsertGroup acc a.group.name a.group) := by
          simp [check_group_identity_go, hl]
        rw [hstep, ih]
        exact groups_compat_insert_iff acc a (argGroups rest) (Or.inl hl)

theorem buildKwargs_of_spec (prog : String) (pargs : List (String × PyVal)) :
    ∀ (l : List CmdArg) (kwargs k : List (String × PyVal)),
      spec_mapped_kwargs prog pargs l kwargs = some k →
      buildKwargs prog pargs l kwargs = .ok k := by
  intro l
  induction l with
  | nil =>
    intro kwargs k h
    simp only [spec_mapped_kwargs] at h
    cases h
    rfl
  | cons e rest ih =>
    intro kwargs k h
    cases e with
    | sub fn opts mf =>
      cases hv : lookupVal pargs fn with
      | none =>
        simp only [spec_mapped_kwargs, hv] at h
        simp only [buildKwargs, hv]
        exact ih _ _ h
      | some value =>
        cases hm : mf prog value with
        | error err =>
          simp only [spec_mapped_kwargs, hv, hm] at h
          exact Option.noConfusion h
        | ok r =>
          simp only [spec_mapped_kwargs, hv, hm] at h
          simp only [buildKwargs, hv, hm]
          exact ih _ _ h
    | arg a =>
      cases hv : lookupVal pargs a.field_name with
      | some value =>
        cases hp : a.parse with
        | none =>
          simp only [spec_mapped_kwargs, rawValueOf, hv, spec_convert, hp] at h
          exact Option.noConfusion h
        | some p =>
          cases hpv : p value with
          | error err =>
            simp only [spec_mapped_kwargs, rawValueOf, hv, spec_convert, hp, hpv,
              Except.toOption] at h
            exact Option.noConfusion h
          | ok w =>
            simp only [spec_mapped_kwargs, rawValueOf, hv, spec_convert, hp, hpv,
              Except.toOption] at h
            simp only [buildKwargs, hv, argParseStep, hp, hpv]
            exact ih _ _ h
      | none =>
        cases hd : a.default with
        | none =>
          simp only [spec_mapped_kwargs, rawValueOf, hv, hd] at h
          exact Option.noConfusion h
        | some d =>
          cases hp : a.parse with
          | none =>
            simp only [spec_mapped_kwargs, rawValueOf, hv, hd, spec_convert, hp] at h
            exact Option.noConfusion h
          | some p =>
            cases hpv : p d with
            | error err =>
              simp only [spec_mapped_kwargs, rawValueOf, hv, hd, spec_convert, hp, hpv,
                Except.toOption] at h
              exact Option.noConfusion h
            | ok w =>
              simp only [spec_mapped_kwargs, rawValueOf, hv, hd, spec_convert, hp, hpv,
                Except.toOption] at h
              simp only [buildKwargs, hv, hd, argParseStep, hp, hpv]
              exact ih _ _ h

theorem dashInsertTail_map_toLower :
    ∀ l : List Char, (dashInsertTail l).map Char.toLower = spec_dash_tail l := by
  intro l
  induction l with
  | nil => rfl
  | cons d rest ih =>
    have hdash : Char.toLower '-' = '-' := rfl
    simp only [dashInsertTail, spec_dash_tail, List.map_append, ih]
    by_cases hcase : 'A' ≤ d ∧ d ≤ 'Z'
    · simp [hcase, hdash]
    · simp [hcase]

theorem dashCaseChars_eq_spec : ∀ l : List Char, dashCaseChars l = spec_dash_case l := by
  intro l
  cases l with
  | nil => rfl
  | cons c rest =>
    simp only [dashCaseChars, spec_dash_case, List.map_cons]
    exact congrArg _ (dashInsertTail_map_toLower rest)

/-!
## Claim theorems
-/

/-- **C1** (amended): for every union annotation, the derived parser tries
the member parsers in ascending order of the fixed priority table (float 2,
int 3, bool 4, str 5; every type absent from the table — including
`NoneType`, since the table's `None` key is the value `None` — at the
default priority 1; the sort is stable, a permutation of the members),
returns the outcome of the first member parser that does not raise
`ValueError` or `TypeError`, and when every member parser so fails it
raises `ValueError` mentioning the offered options provided the joined
backend renderings are all strings; a `Literal` member whose first argument
is not a string makes the join itself raise `TypeError` instead. -/
theorem claim_C1_parse_union (args : List Ann) (v : PyVal) :
    (type_priority_key .float = 2 ∧ type_priority_key .int = 3 ∧
      type_priority_key .bool = 4 ∧ type_priority_key .str = 5 ∧
      ∀ a, type_priority a = Option.none → type_priority_key a = 1) ∧
    (stableSortBy type_priority_key args).Perm args ∧
    (stableSortBy type_priority_key args).Pairwise
      (fun a b => type_priority_key a ≤ type_priority_key b) ∧
    (∀ pre a post, stableSortBy type_priority_key args = pre ++ a :: post →
      (∀ b ∈ pre, isCaught (parse_value b v) = true) →
      isCaught (parse_value a v) = false →
      parse_union args v = parse_value a v) ∧
    ((∀ a ∈ args, isCaught (parse_value a v) = true) →
      parse_union args v = union_fail_result args v) ∧
    (∀ s, (∀ a ∈ args, isCaught (parse_value a v) = true) →
      pyJoin ", " (args.map backend_type) = .ok s →
      parse_union args v = .error (.valueError
        ("Could not parse '" ++ pyStr v ++ "' given options: " ++ s))) := by
  refine ⟨⟨rfl, rfl, rfl, rfl, ?_⟩, stableSortBy_perm _ _, stableSortBy_pairwise _ _,
    parse_union_first_pass args v, parse_union_all_caught args v, ?_⟩
  · intro a h
    simp [type_priority_key, h]
  · intro s hall hj
    rw [parse_union_all_caught args v hall]
    simp only [union_fail_result, hj]

/-- **C1** witness: on `int | None` with input `"7"`, the none parser (first
by priority) fails with `ValueError`, so the union returns `int("7")`. -/
theorem claim_C1_witness :
    parse_union [Ann.int, Ann.noneType] (PyVal.str "7") = .ok (.int 7) := by
  have h := (claim_C1_parse_union [Ann.int, Ann.noneType] (PyVal.str "7")).2.2.2.1
    [Ann.noneType] Ann.int [] rfl ?_ rfl
  · exact h.trans rfl
  · intro b hb
    have hb' : b = Ann.noneType := by simpa using hb
    rw [hb']
    rfl

/-- **C1** counterexample to the claim as stated: in `Union[int, Literal[5]]`
with the unparseable input `"abc"` every member parser fails, but the raised
exception is the `TypeError` from joining the non-string `Literal` rendering,
not the claimed `ValueError` mentioning the options. -/
theorem claim_C1_counterexample :
    parse_value (.union [.int, .lit [.int 5]]) (.str "abc")
      = .error (.typeError "sequence item 1: expected str instance, int found") ∧
    returns_value_error (parse_value (.union [.int, .lit [.int 5]]) (.str "abc")) = false :=
  ⟨rfl, rfl⟩

/-- **C2**: `parse_value` dispatches on the annotation's shape — literal,
union, the str/bool/int/float primitives (each returning the builtin type
itself as parser), `NoneType`, list, set, fixed and variadic tuple,
text/binary file handles — and returns any other annotation itself as the
parser (identity fallback). -/
theorem claim_C2_parse_value_dispatch :
    (∀ args v, parse_value (.lit args) v = parse_literal args v) ∧
    (∀ args v, parse_value (.union args) v = parse_union args v) ∧
    (∀ v, parse_value .str v = pyStrFn v) ∧
    (∀ v, parse_value .bool v = pyBoolFn v) ∧
    (∀ v, parse_value .int v = pyIntFn v) ∧
    (∀ v, parse_value .float v = pyFloatFn v) ∧
    (∀ v, parse_value .noneType v = parse_none v) ∧
    (∀ inner v, parse_value (.listOf inner) v = parse_list inner v) ∧
    (∀ inner v, parse_value (.setOf inner) v = parse_set inner v) ∧
    (∀ inners v, parse_value (.tupleOf inners) v = tuple_mapper inners v) ∧
    (∀ inner v, parse_value (.vtupleOf inner) v
      = unbounded_tuple_mapper (parse_value inner) v) ∧
    (∀ b md v, parse_value (.fileOf b md) v = parse_file_io b md v) ∧
    (∀ nm f v, parse_value (.other nm f) v = f v) :=
  ⟨fun _ _ => rfl, fun _ _ => rfl, fun _ => rfl, fun _ => rfl, fun _ => rfl,
    fun _ => rfl, fun _ => rfl, fun _ _ => rfl, fun _ _ => rfl, fun _ _ => rfl,
    fun _ _ => rfl, fun _ _ _ => rfl, fun _ _ _ => rfl⟩

/-- **C6**: the literal parser returns the input unchanged when it is one of
the literal's values (by Python `==` over the deduplicated arguments);
otherwise the first literal value whose string rendering equals the input;
otherwise it raises `ValueError` listing the valid choices. -/
theorem claim_C6_parse_literal (args : List PyVal) (v : PyVal) :
    (pyMember v (dedupPy args) = true → parse_literal args v = .ok v) ∧
    (pyMember v (dedupPy args) = false →
      ∀ pre t post, dedupPy args = pre ++ t :: post →
        (∀ b ∈ pre, pyEq (.str (pyStr b)) v = false) →
        pyEq (.str (pyStr t)) v = true →
        parse_literal args v = .ok t) ∧
    (pyMember v (dedupPy args) = false →
      (∀ t ∈ dedupPy args, pyEq (.str (pyStr t)) v = false) →
      parse_literal args v = .error (.valueError
        ("Invalid choice: '" ++ pyStr v ++ "' (choose from "
          ++ String.intercalate ", " (args.map pyStr) ++ ")"))) := by
  refine ⟨?_, ?_, ?_⟩
  · intro hmem
    simp [parse_literal, literal_mapper, hmem]
  · intro hmem pre t post hsplit hpre ht
    simp only [parse_literal, literal_mapper, hmem, Bool.false_eq_true, if_false]
    rw [hsplit, findStrMatch_append_none v pre _ hpre]
    simp [findStrMatch, ht]
  · intro hmem hall
    simp only [parse_literal, literal_mapper, hmem, Bool.false_eq_true, if_false]
    rw [findStrMatch_all_none v _ hall]

/-- **C6** witness: `Literal["one", "two"]` returns the input `"two"`
unchanged, and `Literal[1, 2]` maps the input `"2"` to the literal value
`2` via its string rendering. -/
theorem claim_C6_witness :
    parse_literal [.str "one", .str "two"] (.str "two") = .ok (.str "two") ∧
    parse_literal [.int 1, .int 2] (.str "2") = .ok (.int 2) := by
  constructor
  · exact (claim_C6_parse_literal [.str "one", .str "two"] (.str "two")).1 rfl
  · refine (claim_C6_parse_literal [.int 1, .int 2] (.str "2")).2.1 rfl
      [.int 1] (.int 2) [] rfl ?_ rfl
    intro b hb
    have hb' : b = PyVal.int 1 := by simpa using hb
    rw [hb']
    rfl

/-- **C8** (amended): `parse_none` accepts exactly `None` and raises
`ValueError` on every other input; `NoneType`'s priority is the *default* 1
(the table's `None` key holds the value `None`, which never equals the
`NoneType` class appearing in union args), so `NoneType` is tried before the
table's float/int/bool/str members but ties with members absent from the
table; the optional parser therefore maps `None` to `None` whenever every
other member either carries a table priority (≥ 2) or fails on `None` with
`ValueError`/`TypeError`. -/
theorem claim_C8_optional_none (args : List Ann) :
    (parse_none .none = .ok .none) ∧
    (∀ v, v ≠ .none → parse_none v = .error (.valueError (pyStr v))) ∧
    (Ann.noneType ∈ args →
      (∀ a ∈ args, a ≠ .noneType →
        2 ≤ type_priority_key a ∨ isCaught (parse_value a .none) = true) →
      parse_union args .none = .ok .none) := by
  refine ⟨rfl, ?_, ?_⟩
  · intro v hv
    cases v <;> first | exact absurd rfl hv | rfl
  · intro hmem hyp
    have hsorted : Ann.noneType ∈ stableSortBy type_priority_key args :=
      (stableSortBy_perm type_priority_key args).mem_iff.mpr hmem
    obtain ⟨pre, a, post, hsplit, hPa, hpre⟩ :=
      exists_first_split Ann.isNoneTypeB _ ⟨_, hsorted, rfl⟩
    have ha : a = Ann.noneType := (Ann.isNoneTypeB_iff a).mp hPa
    subst ha
    have hpair := stableSortBy_pairwise type_priority_key args
    rw [hsplit] at hpair
    have hpre' : ∀ b ∈ pre, isCaught (parse_value b .none) = true := by
      intro b hb
      have hble : type_priority_key b ≤ type_priority_key Ann.noneType :=
        (List.pairwise_append.mp hpair).2.2 b hb Ann.noneType (List.mem_cons_self _ _)
      have hb1 : type_priority_key b ≤ 1 := by
        simpa [type_priority_key, type_priority] using hble
      have hbmem : b ∈ args := (stableSortBy_perm type_priority_key args).mem_iff.mp
        (by rw [hsplit]; exact List.mem_append_left _ hb)
      have hbne : b ≠ Ann.noneType := by
        intro hEq
        have hfalse := hpre b hb
        rw [hEq] at hfalse
        simp [Ann.isNoneTypeB] at hfalse
      rcases hyp b hbmem hbne with h2 | hc
      · exfalso; omega
      · exact hc
    have hfinal := parse_union_first_pass args .none pre Ann.noneType post hsplit hpre' rfl
    rw [hfinal]
    rfl

/-- **C8** witness: `Optional[int]` maps `None` to `None`. -/
theorem claim_C8_witness :
    parse_union [Ann.int, Ann.noneType] PyVal.none = .ok .none := by
  refine (claim_C8_optional_none [Ann.int, Ann.noneType]).2.2
    (List.mem_cons_of_mem _ (List.mem_cons_self _ _)) ?_
  intro a ha hne
  rcases List.mem_cons.mp ha with rfl | ha2
  · left
    decide
  · have ha' : a = Ann.noneType := by simpa using ha2
    exact absurd ha' hne

/-- **C8** counterexample to the claim as stated: a union of an unlisted
annotation (whose callable accepts anything) with `NoneType` keeps the
unlisted member first (both carry priority 1 and the sort is stable), so the
optional parser does *not* map `None` to `None`. -/
theorem claim_C8_counterexample :
    parse_value (.union [.other "Custom" (fun _ => .ok (.str "built")), .noneType]) .none
      = .ok (.str "built") ∧
    (Except.ok (PyVal.str "built") : Except PErr PyVal) ≠ .ok .none := by
  refine ⟨rfl, ?_⟩
  intro h
  exact PyVal.noConfusion (Except.ok.inj h)

/-- **C9**: `real_name` returns the explicit name when set; otherwise the
class name with a dash inserted before each non-initial uppercase letter and
the whole string lowercased. -/
theorem claim_C9_real_name (c : Command) :
    (∀ n, c.name = some n → c.real_name = n) ∧
    (c.name = Option.none →
      c.real_name = String.mk (spec_dash_case c.cmd_cls.clsName.data)) := by
  constructor
  · intro n h
    simp [Command.real_name, h]
  · intro h
    simp [Command.real_name, h, dashCaseChars_eq_spec]

/-- **C9** witness: the unnamed command over class `MyCmdABC` renders as
`my-cmd-a-b-c`. -/
theorem claim_C9_witness : Command.real_name cmdABC = "my-cmd-a-b-c" := by
  have h := (claim_C9_real_name cmdABC).2 rfl
  rw [h]
  rfl

/-- **C3**: for every command and parsed-args mapping under which each
value-argument has a defined successful outcome (in particular when all
no-default fields are present), `map_result` converts each non-subcommand
argument's raw value with that Argument's parse function, dispatches each
subcommand value through the subcommand's own `map_result`, and returns the
original class constructor applied to exactly those keyword arguments. -/
theorem claim_C3_map_result (self command : Command) (prog : String)
    (pargs : List (String × PyVal)) (k : List (String × PyVal))
    (h : spec_mapped_kwargs prog pargs self.value_arguments [] = some k) :
    Command.map_result self command prog pargs
      = .ok (command.cmd_cls.construct k) := by
  unfold Command.map_result
  rw [buildKwargs_of_spec prog pargs _ _ _ h]
  rfl

/-- **C3** witness: a command with one int argument and one subcommand maps
`num="5", sc=1` to the constructor applied to `num=5, sc=1`. -/
theorem claim_C3_witness :
    Command.map_result cmdWithArgs cmdWithArgs "prog"
      [("num", PyVal.str "5"), ("sc", PyVal.int 1)]
      = .ok (.list [.int 5, .int 1]) := by
  have h := claim_C3_map_result cmdWithArgs cmdWithArgs "prog"
    [("num", PyVal.str "5"), ("sc", PyVal.int 1)]
    [("num", PyVal.int 5), ("sc", PyVal.int 1)] rfl
  exact h.trans rfl

/-- **C4** (spec-modelled `Group`): collection succeeds exactly when all
`Arg`s sharing a group name carry the identical group object, and a
group-identity mismatch makes `Command.collect` raise the `ValueError`
without producing a schema. -/
theorem claim_C4_group_identity :
    (∀ args : List CmdArg,
      check_group_identity args = .ok () ↔
        (argGroups args).Pairwise (fun g1 g2 => g1.name = g2.name → g1 = g2)) ∧
    (∀ (ext : Externals) (c : Command) (m : String),
      check_group_identity (collect_arguments ext c) = .error m →
      Command.collect ext c = .error m) := by
  constructor
  · intro args
    rw [show check_group_identity args = check_group_identity_go args [] from rfl,
      check_group_identity_go_iff]
    constructor
    · rintro ⟨hp, _⟩
      exact hp
    · intro hp
      refine ⟨hp, ?_⟩
      intro g _ g' hlook
      simp [lookupGroup] at hlook
  · intro ext c m h
    simp only [Command.collect]
    rw [h]

/-- **C4** witness: two `Arg`s carrying the same group object pass the
check, and a same-name distinct-identity pair makes `collect` raise. -/
theorem claim_C4_witness :
    check_group_identity
      [.arg ⟨"x", "--x", Option.none, some pyIntFn, ⟨1, "g"⟩, false⟩,
        .arg ⟨"y", "--y", Option.none, some pyIntFn, ⟨1, "g"⟩, false⟩] = .ok () ∧
    Command.collect extId cmdBadGroups
      = .error "Group details between `Group(name='g')` and `Group(name='g')` must match" := by
  constructor
  · exact (claim_C4_group_identity.1 _).mpr (by decide)
  · exact claim_C4_group_identity.2 extId cmdBadGroups _ rfl

/-- **C5**: `collect` and `add_meta_actions` are pure structural replaces: a
successful `collect` preserves every field it does not explicitly replace
(class, name, invoke, flags, deprecation, collectedness), `add_meta_actions`
preserves every field but the arguments and the collected flag, and on an
already-collected command returns it unchanged. -/
theorem claim_C5_command_immutable (ext : Externals) (c : Command)
    (h v cp : Option Argument) :
    (∀ r, Command.collect ext c = .ok r →
      r.cmd_cls = c.cmd_cls ∧ r.name = c.name ∧ r.invoke = c.invoke ∧
        r.hidden = c.hidden ∧ r.default_short = c.default_short ∧
        r.default_long = c.default_long ∧ r.deprecated = c.deprecated ∧
        r.collected = c.collected) ∧
    ((Command.add_meta_actions h v cp c).cmd_cls = c.cmd_cls ∧
      (Command.add_meta_actions h v cp c).name = c.name ∧
      (Command.add_meta_actions h v cp c).help = c.help ∧
      (Command.add_meta_actions h v cp c).description = c.description ∧
      (Command.add_meta_actions h v cp c).invoke = c.invoke ∧
      (Command.add_meta_actions h v cp c).hidden = c.hidden ∧
      (Command.add_meta_actions h v cp c).default_short = c.default_short ∧
      (Command.add_meta_actions h v cp c).default_long = c.default_long ∧
      (Command.add_meta_actions h v cp c).deprecated = c.deprecated) ∧
    (c.collected = true → Command.add_meta_actions h v cp c = c) := by
  refine ⟨?_, ?_, ?_⟩
  · intro r hr
    simp only [Command.collect] at hr
    split at hr
    · exact Except.noConfusion hr
    · cases Except.ok.inj hr
      exact ⟨rfl, rfl, rfl, rfl, rfl, rfl, rfl, rfl⟩
  · cases c with
    | mk cls args nm hp ds iv hd dsh dlg dep col =>
      cases col
      · exact ⟨rfl, rfl, rfl, rfl, rfl, rfl, rfl, rfl, rfl⟩
      · exact ⟨rfl, rfl, rfl, rfl, rfl, rfl, rfl, rfl, rfl⟩
  · intro hcol
    cases c with
    | mk cls args nm hp ds iv hd dsh dlg dep col =>
      cases col
      · exact Bool.noConfusion hcol
      · rfl

/-- **C5** witness: an already-collected command passes through
`add_meta_actions` unchanged, and collecting `cmdABC` preserves its (absent)
name. -/
theorem claim_C5_witness :
    Command.add_meta_actions (some argNum) Option.none Option.none cmdCollectedABC
      = cmdCollectedABC ∧
    Command.name (.mk clsABC [] Option.none (some "summary text") (some "body text")
      Option.none false false false (.ofBool false) false) = Option.none := by
  constructor
  · exact (claim_C5_command_immutable extId cmdCollectedABC (some argNum)
      Option.none Option.none).2.2 rfl
  · exact ((claim_C5_command_immutable extId cmdABC Option.none Option.none
      Option.none).1 _ rfl).2.1

/-- **C7**: when an argument's parse function raises during result mapping
(after any prefix of value arguments maps fine), `map_result` raises `Exit`
with code 2 and the message `Invalid value for '<names>': <reason>` built
from the argument's rendered names and the original exception text. -/
theorem claim_C7_invalid_value (self command : Command) (prog : String)
    (pargs : List (String × PyVal)) (pre post : List CmdArg) (a : Argument)
    (k : List (String × PyVal)) (raw : PyVal) (p : PyVal → Except PErr PyVal)
    (e : PErr)
    (hargs : self.value_arguments = pre ++ .arg a :: post)
    (hpre : buildKwargs prog pargs pre [] = .ok k)
    (hraw : lookupVal pargs a.field_name = some raw ∨
      (lookupVal pargs a.field_name = Option.none ∧ a.default = some raw))
    (hp : a.parse = some p)
    (he : p raw = .error e) :
    Command.map_result self command prog pargs
      = .error (.exit ⟨some ("Invalid value for '" ++ a.names_rendered ++ "': "
          ++ e.text), 2, some prog⟩) := by
  unfold Command.map_result
  rw [hargs, buildKwargs_append_ok prog pargs pre (.arg a :: post) [] k hpre]
  have hstep : argParseStep prog a raw
      = .error (.exit ⟨some ("Invalid value for '" ++ a.names_rendered ++ "': "
          ++ e.text), 2, some prog⟩) := by
    simp only [argParseStep, hp, he]
  rcases hraw with hv | ⟨hv, hd⟩
  · simp only [buildKwargs, hv, hstep]
    rfl
  · simp only [buildKwargs, hv, hd, hstep]
    rfl

/-- **C7** witness: the int argument `--num` fed `"x"` exits with code 2 and
the full user-facing message. -/
theorem claim_C7_witness :
    Command.map_result
      (.mk clsABC [.arg argNum] Option.none (some "h") (some "d") Option.none
        false false false (.ofBool false) false)
      cmdABC "prog" [("num", PyVal.str "x")]
      = .error (.exit ⟨some "Invalid value for '--num': invalid literal for int() with base 10: 'x'", 2, some "prog"⟩) := by
  exact claim_C7_invalid_value _ cmdABC "prog" [("num", PyVal.str "x")] [] []
    argNum [] (PyVal.str "x") pyIntFn
    (.valueError "invalid literal for int() with base 10: 'x'")
    rfl rfl (Or.inl rfl) rfl rfl

/-- **C10**: during result mapping, an absent subcommand field is skipped
(omitted from the kwargs), an absent argument without a default fails the
`assert`, and an absent argument with a default behaves exactly as though
the parsed args contained the default value; `map_result` is the kwargs
loop followed by the constructor call. -/
theorem claim_C10_absent_field (prog : String) (pargs : List (String × PyVal))
    (a : Argument) (fn : String) (opts : List SubOption)
    (mf : String → PyVal → Except MapError PyVal)
    (rest : List CmdArg) (kwargs : List (String × PyVal)) (d : PyVal) :
    (lookupVal pargs fn = Option.none →
      buildKwargs prog pargs (.sub fn opts mf :: rest) kwargs
        = buildKwargs prog pargs rest kwargs) ∧
    (lookupVal pargs a.field_name = Option.none → a.default = Option.none →
      buildKwargs prog pargs (.arg a :: rest) kwargs = .error .assertionError) ∧
    (lookupVal pargs a.field_name = Option.none → a.default = some d →
      buildKwargs prog pargs [.arg a] kwargs
        = buildKwargs prog (dictInsert pargs a.field_name d) [.arg a] kwargs) ∧
    (∀ self command : Command,
      Command.map_result self command prog pargs
        = (buildKwargs prog pargs self.value_arguments []).map
            (fun kw => command.cmd_cls.construct kw)) := by
  refine ⟨?_, ?_, ?_, fun _ _ => rfl⟩
  · intro hv
    simp only [buildKwargs, hv]
  · intro hv hd
    simp only [buildKwargs, hv, hd]
  · intro hv hd
    have hlook : lookupVal (dictInsert pargs a.field_name d) a.field_name = some d := by
      rw [lookupVal_dictInsert]
      simp
    simp only [buildKwargs, hv, hd, hlook]

/-- **C10** witness: the defaulted `--num` argument, absent from the parsed
args, contributes its parsed default, while the no-default version fails the
assert and an absent subcommand is skipped. -/
theorem claim_C10_witness :
    buildKwargs "p" [] [.arg argNumDefault] [] = .ok [("num", PyVal.int 7)] ∧
    buildKwargs "p" [] [.arg argNum] [] = .error .assertionError ∧
    buildKwargs "p" [] [subSC] [] = .ok [] := by
  refine ⟨?_, ?_, ?_⟩
  · exact ((claim_C10_absent_field "p" [] argNumDefault "sc" [] (fun _ w => .ok w)
      [] [] (.str "7")).2.2.1 rfl rfl).trans rfl
  · exact (claim_C10_absent_field "p" [] argNum "sc" [] (fun _ w => .ok w)
      [] [] (.str "7")).2.1 rfl rfl
  · exact ((claim_C10_absent_field "p" [] argNum "sc" [] (fun _ w => .ok w)
      [] [] (.str "7")).1 rfl).trans rfl
